import Mathlib

/-!
Verification of the Transiter RAG server (src/Transiter/server/index.js).

The server's pipeline logic is embedded shallowly:
  * `chunkText` mirrors the while-loop chunker, with JavaScript slice
    semantics (`jsSlice`) and an explicit fuel so that the loop's
    (non-)termination can be discussed; the signed index is an `Int`
    because the JS loop variable may go negative when `overlap > size`.
  * `chunksFrom` is a structural presentation of the same loop used to
    state and prove properties; it is connected to `chunkText` by
    `chunkText_eq_chunksFrom`.
-/

namespace Transiter

/-- JavaScript `String.prototype.slice` on a list of characters: negative
indices count from the end of the string, and indices are clamped to
`[0, length]`. -/
def jsSlice (s : List Char) (a b : Int) : List Char :=
  let len : Int := s.length
  let st := if a < 0 then max (len + a) 0 else min a len
  let en := if b < 0 then max (len + b) 0 else min b len
  (s.drop st.toNat).take (en - st).toNat

/-- Fuel-indexed evaluation of the `while (i < text.length)` loop of
`chunkText` in index.js: push `text.slice(i, i + size)`, then
`i += (size - overlap)`.  Returns `none` when the fuel runs out before
the loop exits. -/
def chunkTextFuel : Nat → List Char → Nat → Nat → Int → Option (List (List Char))
  | 0, _, _, _, _ => none
  | fuel + 1, text, size, overlap, i =>
      if i < (text.length : Int) then
        match chunkTextFuel fuel text size overlap (i + ((size : Int) - (overlap : Int))) with
        | some rest => some (jsSlice text i (i + (size : Int)) :: rest)
        | none => none
      else
        some []

/-- `chunkText(text, size, overlap)` from index.js.  `text.length + 1`
units of fuel are enough whenever `overlap < size` (see
`chunkText_eq_chunksFrom`); with `overlap >= size` the loop diverges and
the result is `none` for every amount of fuel. -/
def chunkText (text : List Char) (size overlap : Nat) : Option (List (List Char)) :=
  chunkTextFuel (text.length + 1) text size overlap 0

/-- The chunker's defaults in index.js: `size = 900`. -/
def chunkSize : Nat := 900

/-- The chunker's defaults in index.js: `overlap = 120`. -/
def chunkOverlap : Nat := 120

/-- Structural form of the chunk loop: take a `size`-window, advance by
`step = size - overlap`.  (The `step = 0` guard is only there to make the
definition total; it is never taken when `overlap < size`.) -/
def chunksFrom (size step : Nat) (t : List Char) : List (List Char) :=
  if _h : t.length = 0 ∨ step = 0 then []
  else t.take size :: chunksFrom size step (t.drop step)
termination_by t.length
decreasing_by
  simp only [List.length_drop]
  omega

theorem chunksFrom_nil_or (size step : Nat) (t : List Char)
    (h : t.length = 0 ∨ step = 0) : chunksFrom size step t = [] := by
  unfold chunksFrom
  rw [dif_pos h]

theorem chunksFrom_cons (size step : Nat) (t : List Char)
    (h1 : t.length ≠ 0) (h2 : step ≠ 0) :
    chunksFrom size step t = t.take size :: chunksFrom size step (t.drop step) := by
  have h : ¬ (t.length = 0 ∨ step = 0) := by
    intro hc
    rcases hc with hc | hc
    · exact h1 hc
    · exact h2 hc
  conv_lhs => unfold chunksFrom
  rw [dif_neg h]

theorem jsSlice_natCast (s : List Char) (a b : Nat) :
    jsSlice s (a : Int) (b : Int) = (s.drop a).take (b - a) := by
  have ha : ¬ ((a : Int) < 0) := by
    simp
  have hb : ¬ ((b : Int) < 0) := by
    simp
  simp only [jsSlice, if_neg ha, if_neg hb]
  have h1 : min (a : Int) ((s.length : Nat) : Int) = ((min a s.length : Nat) : Int) := by
    omega
  have h2 : min (b : Int) ((s.length : Nat) : Int) = ((min b s.length : Nat) : Int) := by
    omega
  rw [h1, h2]
  have h3 : (((min b s.length : Nat) : Int) - ((min a s.length : Nat) : Int)).toNat
      = min b s.length - min a s.length := by
    omega
  have h4 : (((min a s.length : Nat) : Int)).toNat = min a s.length := by
    omega
  rw [h3, h4]
  rcases le_or_lt a s.length with h | h
  · rw [min_eq_left h]
    rw [List.take_eq_take]
    simp only [List.length_drop]
    omega
  · have hmin : min a s.length = s.length := min_eq_right h.le
    rw [hmin]
    have e1 : s.drop s.length = [] := by simp
    have e2 : s.drop a = [] := List.drop_eq_nil_of_le h.le
    rw [e1, e2]
    simp

theorem chunkTextFuel_eq_chunksFrom (size overlap : Nat) (h : overlap < size)
    (text : List Char) :
    ∀ (fuel i : Nat), text.length - i < fuel →
      chunkTextFuel fuel text size overlap (i : Int) =
        some (chunksFrom size (size - overlap) (text.drop i)) := by
  intro fuel
  induction fuel with
  | zero =>
      intro i hi
      exact absurd hi (by omega)
  | succ n ih =>
      intro i hi
      by_cases hc : i < text.length
      · have hcond : (i : Int) < (text.length : Int) := by exact_mod_cast hc
        have hcast : (i : Int) + ((size : Int) - (overlap : Int))
            = ((i + (size - overlap) : Nat) : Int) := by
          omega
        have hrec := ih (i + (size - overlap)) (by omega)
        rw [← hcast] at hrec
        simp only [chunkTextFuel, if_pos hcond, hrec]
        have hslice : (i : Int) + (size : Int) = ((i + size : Nat) : Int) := by
          omega
        rw [hslice, jsSlice_natCast]
        have h2 : i + size - i = size := by omega
        rw [h2]
        rw [chunksFrom_cons size (size - overlap) (text.drop i)
          (by simp only [List.length_drop]; omega) (by omega)]
        rw [List.drop_drop]
      · have hcond : ¬ ((i : Int) < (text.length : Int)) := by exact_mod_cast hc
        simp only [chunkTextFuel, if_neg hcond]
        rw [List.drop_eq_nil_of_le (by omega)]
        rw [chunksFrom_nil_or size (size - overlap) [] (Or.inl rfl)]

theorem chunkText_eq_chunksFrom (text : List Char) (size overlap : Nat)
    (h : overlap < size) :
    chunkText text size overlap = some (chunksFrom size (size - overlap) text) := by
  have hmain := chunkTextFuel_eq_chunksFrom size overlap h text (text.length + 1) 0 (by omega)
  simpa [chunkText] using hmain

theorem chunksFrom_length (size step : Nat) (hs : 0 < step) (t : List Char) :
    (chunksFrom size step t).length = (t.length + step - 1) / step := by
  by_cases h0 : t.length = 0
  · rw [chunksFrom_nil_or size step t (Or.inl h0), h0]
    simp only [List.length_nil]
    rw [Nat.div_eq_of_lt (by omega)]
  · rw [chunksFrom_cons size step t h0 (by omega)]
    simp only [List.length_cons]
    rw [chunksFrom_length size step hs (t.drop step)]
    simp only [List.length_drop]
    have key : t.length + step - 1 = (t.length - 1) + step := by omega
    rw [key, Nat.add_div_right _ hs]
    rcases le_or_lt step t.length with hbL | hbL
    · have e : t.length - step + step - 1 = t.length - 1 := by omega
      rw [e]
    · have e : t.length - step = 0 := by omega
      rw [e]
      have e1 : (0 + step - 1) / step = 0 := Nat.div_eq_of_lt (by omega)
      have e2 : (t.length - 1) / step = 0 := Nat.div_eq_of_lt (by omega)
      rw [e1, e2]
termination_by t.length
decreasing_by
  simp only [List.length_drop]
  omega

theorem chunksFrom_getElem (size step : Nat) (hs : 0 < step) (t : List Char)
    (k : Nat) :
    (chunksFrom size step t)[k]? =
      if k * step < t.length then some ((t.drop (k * step)).take size) else none := by
  by_cases h0 : t.length = 0
  · rw [chunksFrom_nil_or size step t (Or.inl h0)]
    rw [if_neg (by omega)]
    simp
  · rw [chunksFrom_cons size step t h0 (by omega)]
    cases k with
    | zero =>
        rw [if_pos (by omega)]
        simp
    | succ m =>
        simp only [List.getElem?_cons_succ]
        rw [chunksFrom_getElem size step hs (t.drop step) m]
        simp only [List.length_drop, List.drop_drop]
        have hmul : (m + 1) * step = m * step + step := by
          rw [Nat.succ_mul]
        by_cases hcond : m * step < t.length - step
        · rw [if_pos hcond, if_pos (by omega)]
          rw [Nat.add_comm step (m * step), ← hmul]
        · rw [if_neg hcond, if_neg (by omega)]
termination_by t.length
decreasing_by
  simp only [List.length_drop]
  omega

/-- If the loop never stops (`size ≤ overlap`, i.e. the step
`size - overlap` is not positive) then no amount of fuel produces a
result on a non-empty text: the JS while-loop runs forever. -/
theorem chunkTextFuel_none_of_le (size overlap : Nat) (hso : size ≤ overlap)
    (text : List Char) (ht : text ≠ []) :
    ∀ (fuel : Nat) (i : Int), i ≤ 0 → chunkTextFuel fuel text size overlap i = none := by
  intro fuel
  induction fuel with
  | zero =>
      intro i hi
      rfl
  | succ n ih =>
      intro i hi
      have hlen : 0 < text.length := List.length_pos.mpr ht
      have hcond : i < (text.length : Int) := by omega
      have hstep : (size : Int) - (overlap : Int) ≤ 0 := by omega
      have hrec := ih (i + ((size : Int) - (overlap : Int))) (by omega)
      simp only [chunkTextFuel, if_pos hcond, hrec]

/-- Putting back the first `overlap` characters: concatenate the first
chunk with every later chunk stripped of its first `overlap` characters. -/
def reconstruct (overlap : Nat) : List (List Char) → List Char
  | [] => []
  | c :: rest => c ++ (rest.map (fun d => d.drop overlap)).flatten

theorem chunksFrom_reconstruct_aux (size overlap : Nat) (h : overlap < size)
    (t : List Char) :
    t.take size ++
      ((chunksFrom size (size - overlap) (t.drop (size - overlap))).map
        (fun c => c.drop overlap)).flatten = t := by
  by_cases h0 : (t.drop (size - overlap)).length = 0
  · rw [chunksFrom_nil_or size (size - overlap) _ (Or.inl h0)]
    simp only [List.map_nil, List.flatten_nil, List.append_nil]
    apply List.take_of_length_le
    simp only [List.length_drop] at h0
    omega
  · rw [chunksFrom_cons size (size - overlap) _ h0 (by omega)]
    simp only [List.map_cons, List.flatten_cons]
    have hdt : ((t.drop (size - overlap)).take size).drop overlap
        = (t.drop size).take (size - overlap) := by
      rw [List.drop_take, List.drop_drop]
      have e2 : size - overlap + overlap = size := by omega
      rw [e2]
    rw [hdt]
    have hih := chunksFrom_reconstruct_aux size overlap h (t.drop (size - overlap))
    have hsplit : t.take size ++ (t.drop size).take (size - overlap)
        = t.take (size + (size - overlap)) := by
      rw [List.take_add]
    have hsplit2 : t.take (size + (size - overlap))
        = t.take (size - overlap) ++ (t.drop (size - overlap)).take size := by
      have e4 : size + (size - overlap) = (size - overlap) + size := by omega
      rw [e4, List.take_add]
    rw [← List.append_assoc, hsplit, hsplit2, List.append_assoc, hih]
    exact List.take_append_drop _ t
termination_by t.length
decreasing_by
  simp only [List.length_drop] at h0 ⊢
  omega

theorem chunksFrom_reconstruct (size overlap : Nat) (h : overlap < size)
    (t : List Char) :
    reconstruct overlap (chunksFrom size (size - overlap) t) = t := by
  by_cases h0 : t.length = 0
  · rw [chunksFrom_nil_or size (size - overlap) t (Or.inl h0)]
    have : t = [] := List.length_eq_zero.mp h0
    rw [this]
    rfl
  · rw [chunksFrom_cons size (size - overlap) t h0 (by omega)]
    show t.take size ++ _ = t
    exact chunksFrom_reconstruct_aux size overlap h t

/-- C1 (counterexample): the spec's chunk-count formula
`ceil(max(L-O,0)/(W-O))` is wrong on a one-character text with window 3
and overlap 1: the code produces one chunk, the formula gives
`ceil(0/2) = 0`.  (`ceil(a/b)` is encoded as `(a + b - 1) / b`.) -/
theorem chunkText_count_spec_formula_cex :
    (chunkText ['a'] 3 1).map List.length = some 1 ∧
      (max (1 - 1) 0 + (3 - 1) - 1) / (3 - 1) = 0 := by
  decide

/-- C1 (amended): for `overlap < size`, `chunkText` returns exactly
`ceil(L / (W - O))` chunks (encoded as `(L + (W-O) - 1) / (W-O)`), where
`L` is the text length, `W` the window size and `O` the overlap. -/
theorem chunkText_count (text : List Char) (size overlap : Nat)
    (h : overlap < size) :
    ∃ cs, chunkText text size overlap = some cs ∧
      cs.length = (text.length + (size - overlap) - 1) / (size - overlap) :=
  ⟨chunksFrom size (size - overlap) text,
    chunkText_eq_chunksFrom text size overlap h,
    chunksFrom_length size (size - overlap) (by omega) text⟩

/-- C1 (witness): the spec's own example, 1000 characters with window 900
and overlap 120, gives `ceil(1000/780) = 2` chunks. -/
theorem chunkText_count_witness :
    ∃ cs, chunkText (List.replicate 1000 'a') 900 120 = some cs ∧
      cs.length = ((List.replicate 1000 'a').length + (900 - 120) - 1) / (900 - 120) :=
  chunkText_count (List.replicate 1000 'a') 900 120 (by decide)

/-- C2 (counterexample): on `chunkText("abcdef", 5, 4)` the chunk at
index 2 (`"cdef"`) is not the last one, yet its length is 4, not the
window size 5; and its last 4 characters (`"cdef"`) differ from the
first 4 characters of the next chunk (`"def"`). -/
theorem chunkText_overlap_spec_cex :
    chunkText "abcdef".toList 5 4 =
      some ["abcde".toList, "bcdef".toList, "cdef".toList,
        "def".toList, "ef".toList, "f".toList] ∧
      "cdef".toList.length ≠ 5 ∧
      "cdef".toList.drop ("cdef".toList.length - 4) ≠ "def".toList.take 4 := by
  decide

/-- C2 (amended): for `overlap < size`, chunk `k` is
`text.drop (k*(size-overlap)) |>.take size`, so it has length
`min size (L - k*(size-overlap))` — any chunk, not only the final one,
may be shorter than the window; and for every pair of consecutive
chunks, the earlier chunk stripped of its first `size - overlap`
characters equals the first `overlap` characters of the next chunk.
When the earlier chunk has full length `size`, this says exactly that
its last `overlap` characters are the next chunk's first `overlap`
characters. -/
theorem chunkText_chunk_shape (text : List Char) (size overlap : Nat)
    (h : overlap < size) :
    ∃ cs, chunkText text size overlap = some cs ∧
      (∀ k ck, cs[k]? = some ck →
        ck = (text.drop (k * (size - overlap))).take size ∧
        ck.length = min size (text.length - k * (size - overlap))) ∧
      (∀ k ck ck1, cs[k]? = some ck → cs[k+1]? = some ck1 →
        ck.drop (size - overlap) = ck1.take overlap) := by
  refine ⟨chunksFrom size (size - overlap) text,
    chunkText_eq_chunksFrom text size overlap h, ?_, ?_⟩
  · intro k ck hck
    rw [chunksFrom_getElem size (size - overlap) (by omega) text k] at hck
    by_cases hc : k * (size - overlap) < text.length
    · rw [if_pos hc] at hck
      have he : ck = (text.drop (k * (size - overlap))).take size :=
        (Option.some_inj.mp hck).symm
      constructor
      · exact he
      · rw [he]
        simp [List.length_take, List.length_drop]
    · rw [if_neg hc] at hck
      exact absurd hck (by simp)
  · intro k ck ck1 hck hck1
    rw [chunksFrom_getElem size (size - overlap) (by omega) text k] at hck
    rw [chunksFrom_getElem size (size - overlap) (by omega) text (k + 1)] at hck1
    by_cases hc : k * (size - overlap) < text.length
    · rw [if_pos hc] at hck
      by_cases hc1 : (k + 1) * (size - overlap) < text.length
      · rw [if_pos hc1] at hck1
        have he : ck = (text.drop (k * (size - overlap))).take size :=
          (Option.some_inj.mp hck).symm
        have he1 : ck1 = (text.drop ((k + 1) * (size - overlap))).take size :=
          (Option.some_inj.mp hck1).symm
        rw [he, he1, List.drop_take, List.drop_drop, List.take_take]
        have e1 : k * (size - overlap) + (size - overlap) = (k + 1) * (size - overlap) := by
          rw [Nat.succ_mul]
        have e2 : size - (size - overlap) = overlap := by omega
        have e3 : min overlap size = overlap := by omega
        rw [e1, e2, e3]
      · rw [if_neg hc1] at hck1
        exact absurd hck1 (by simp)
    · rw [if_neg hc] at hck
      exact absurd hck (by simp)

/-- C2 (witness): on the spec's 1000-character example with window 900
and overlap 120 the per-chunk shape and overlap relation hold. -/
theorem chunkText_chunk_shape_witness :
    ∃ cs, chunkText (List.replicate 1000 'a') 900 120 = some cs ∧
      (∀ k ck, cs[k]? = some ck →
        ck = ((List.replicate 1000 'a').drop (k * (900 - 120))).take 900 ∧
        ck.length = min 900 ((List.replicate 1000 'a').length - k * (900 - 120))) ∧
      (∀ k ck ck1, cs[k]? = some ck → cs[k+1]? = some ck1 →
        ck.drop (900 - 120) = ck1.take 120) :=
  chunkText_chunk_shape (List.replicate 1000 'a') 900 120 (by decide)

/-- C9: the chunk loop terminates whenever `overlap < size` (the index
strictly increases by `size - overlap` each iteration), and for a
non-empty text with `size ≤ overlap` the loop never terminates: no
amount of fuel yields a result, so `overlap < size` is a necessary
precondition for totality. -/
theorem chunkText_termination (text : List Char) (size overlap : Nat) :
    (overlap < size → (chunkText text size overlap).isSome = true) ∧
    (size ≤ overlap → text ≠ [] →
      ∀ fuel, chunkTextFuel fuel text size overlap 0 = none) := by
  constructor
  · intro h
    rw [chunkText_eq_chunksFrom text size overlap h]
    rfl
  · intro hso ht fuel
    exact chunkTextFuel_none_of_le size overlap hso text ht fuel 0 le_rfl

/-- C9 (witness): the loop terminates on `"a"` with window 2, overlap 1;
with window 1 and overlap 1 it exhausts any fuel, e.g. 5. -/
theorem chunkText_termination_witness :
    (chunkText ['a'] 2 1).isSome = true ∧
      chunkTextFuel 5 ['a'] 1 1 0 = none :=
  ⟨(chunkText_termination ['a'] 2 1).1 (by decide),
    (chunkText_termination ['a'] 1 1).2 (by decide) (by decide) 5⟩

/-- C10: round-trip reconstruction — for `overlap < size`, concatenating
the first chunk with every subsequent chunk stripped of its first
`overlap` characters yields exactly the original text. -/
theorem chunkText_reconstruct (text : List Char) (size overlap : Nat)
    (h : overlap < size) :
    ∃ cs, chunkText text size overlap = some cs ∧
      reconstruct overlap cs = text :=
  ⟨chunksFrom size (size - overlap) text,
    chunkText_eq_chunksFrom text size overlap h,
    chunksFrom_reconstruct size overlap h text⟩

/-- C10 (witness): reconstruction on `"abcdef"` with window 5, overlap 4. -/
theorem chunkText_reconstruct_witness :
    ∃ cs, chunkText "abcdef".toList 5 4 = some cs ∧
      reconstruct 4 cs = "abcdef".toList :=
  chunkText_reconstruct "abcdef".toList 5 4 (by decide)

/-! ### Data model: stored chunks (§3 of the spec, `upsertDocs` and the
ingest route in index.js). -/

/-- `meta: { section, tags }` of a stored document.  `sectionLabel`
models the `section` field (a Lean keyword). -/
structure DocMeta where
  sectionLabel : List Char
  tags : List String
deriving DecidableEq

/-- A document as built by the ingest route: `{ city, category, url,
chunk, meta, pos, embedding }`.  `pos` is optional because `upsertDocs`
keys on `d.pos ?? i`; the route always sets it.  The embedding vector is
whatever the external embeddings API returned. -/
structure DocRecord where
  city : String
  category : String
  url : String
  chunk : List Char
  meta : DocMeta
  pos : Option Nat
  embedding : List Int
deriving DecidableEq

/-- The Mongo collection, modelled as an association list from the
uniqueness key `(url, pos)` to the stored document. -/
abbrev Store := List ((String × Nat) × DocRecord)

/-- One `updateOne` with `upsert: true`: replace the documents matching
the key filter, or insert when none matches. -/
def upsertOne (s : Store) (k : String × Nat) (d : DocRecord) : Store :=
  if ∃ e ∈ s, e.1 = k then s.map (fun e => if e.1 = k then (k, d) else e)
  else s ++ [(k, d)]

/-- JS `Array.prototype.map((x, i) => ...)` with the element index. -/
def mapIdxFrom {α β : Type} (f : Nat → α → β) : Nat → List α → List β
  | _, [] => []
  | i, a :: as => f i a :: mapIdxFrom f (i + 1) as

/-- The bulkWrite operations of `upsertDocs`: each doc is keyed by
`(d.url, d.pos ?? i)`. -/
def buildOps (docs : List DocRecord) : List ((String × Nat) × DocRecord) :=
  mapIdxFrom (fun i d => ((d.url, d.pos.getD i), d)) 0 docs

/-- Apply a list of upsert operations to the store. -/
def applyOps (s : Store) (ops : List ((String × Nat) × DocRecord)) : Store :=
  ops.foldl (fun acc op => upsertOne acc op.1 op.2) s

/-- `upsertDocs(docs)` from index.js.  (The early return on an empty
`docs` array is a store no-op either way.) -/
def upsertDocs (s : Store) (docs : List DocRecord) : Store :=
  applyOps s (buildOps docs)

/-- The keys currently present in the store. -/
def storeKeys (s : Store) : List (String × Nat) :=
  s.map (fun e => e.1)

theorem mem_storeKeys_iff (s : Store) (k : String × Nat) :
    k ∈ storeKeys s ↔ ∃ e ∈ s, e.1 = k := by
  simp [storeKeys, List.mem_map]

theorem storeKeys_upsertOne_of_mem (s : Store) (k : String × Nat) (d : DocRecord)
    (h : k ∈ storeKeys s) : storeKeys (upsertOne s k d) = storeKeys s := by
  rw [upsertOne, if_pos ((mem_storeKeys_iff s k).mp h)]
  simp only [storeKeys, List.map_map]
  apply List.map_congr_left
  intro e he
  by_cases hek : e.1 = k
  · simp [Function.comp, hek]
  · simp [Function.comp, hek]

theorem length_upsertOne_of_mem (s : Store) (k : String × Nat) (d : DocRecord)
    (h : k ∈ storeKeys s) : (upsertOne s k d).length = s.length := by
  rw [upsertOne, if_pos ((mem_storeKeys_iff s k).mp h)]
  simp

theorem mem_storeKeys_upsertOne (s : Store) (k k' : String × Nat) (d : DocRecord)
    (h : k' ∈ storeKeys s) : k' ∈ storeKeys (upsertOne s k d) := by
  rw [upsertOne]
  by_cases hc : ∃ e ∈ s, e.1 = k
  · rw [if_pos hc]
    have : storeKeys (s.map (fun e => if e.1 = k then (k, d) else e)) = storeKeys s := by
      simp only [storeKeys, List.map_map]
      apply List.map_congr_left
      intro e he
      by_cases hek : e.1 = k
      · simp [Function.comp, hek]
      · simp [Function.comp, hek]
    rw [this]
    exact h
  · rw [if_neg hc]
    simp only [storeKeys, List.map_append]
    exact List.mem_append_left _ h

theorem self_mem_storeKeys_upsertOne (s : Store) (k : String × Nat) (d : DocRecord) :
    k ∈ storeKeys (upsertOne s k d) := by
  rw [upsertOne]
  by_cases hc : ∃ e ∈ s, e.1 = k
  · rw [if_pos hc]
    simp only [storeKeys, List.map_map, List.mem_map]
    obtain ⟨e, he, hek⟩ := hc
    refine ⟨e, he, ?_⟩
    simp [Function.comp, hek]
  · rw [if_neg hc]
    simp [storeKeys]

theorem mem_storeKeys_applyOps (ops : List ((String × Nat) × DocRecord)) :
    ∀ (s : Store) (k : String × Nat), k ∈ storeKeys s →
      k ∈ storeKeys (applyOps s ops) := by
  induction ops with
  | nil =>
      intro s k h
      exact h
  | cons op rest ih =>
      intro s k h
      exact ih (upsertOne s op.1 op.2) k (mem_storeKeys_upsertOne s op.1 k op.2 h)

theorem ops_mem_storeKeys_applyOps (ops : List ((String × Nat) × DocRecord)) :
    ∀ (s : Store) (op : (String × Nat) × DocRecord), op ∈ ops →
      op.1 ∈ storeKeys (applyOps s ops) := by
  induction ops with
  | nil =>
      intro s op h
      exact absurd h (List.not_mem_nil op)
  | cons hd rest ih =>
      intro s op h
      rcases List.mem_cons.mp h with h | h
      · subst h
        exact mem_storeKeys_applyOps rest (upsertOne s op.1 op.2) op.1
          (self_mem_storeKeys_upsertOne s op.1 op.2)
      · exact ih (upsertOne s hd.1 hd.2) op h

theorem applyOps_length_of_mem (ops : List ((String × Nat) × DocRecord)) :
    ∀ (s : Store), (∀ op ∈ ops, op.1 ∈ storeKeys s) →
      (applyOps s ops).length = s.length := by
  induction ops with
  | nil =>
      intro s _
      rfl
  | cons hd rest ih =>
      intro s h
      have hhd : hd.1 ∈ storeKeys s := h hd (List.mem_cons_self hd rest)
      have hkeys : storeKeys (upsertOne s hd.1 hd.2) = storeKeys s :=
        storeKeys_upsertOne_of_mem s hd.1 hd.2 hhd
      have hrest : ∀ op ∈ rest, op.1 ∈ storeKeys (upsertOne s hd.1 hd.2) := by
        intro op hop
        rw [hkeys]
        exact h op (List.mem_cons_of_mem hd hop)
      show (applyOps (upsertOne s hd.1 hd.2) rest).length = s.length
      rw [ih (upsertOne s hd.1 hd.2) hrest]
      exact length_upsertOne_of_mem s hd.1 hd.2 hhd

/-- C5: upsert idempotence — repeating `upsertDocs` with the same
document list leaves the stored chunk count unchanged (not doubled),
because every operation is keyed by `(url, pos)` and the second pass
only overwrites documents the first pass created. -/
theorem upsertDocs_idempotent_count (s : Store) (docs : List DocRecord) :
    (upsertDocs (upsertDocs s docs) docs).length = (upsertDocs s docs).length := by
  apply applyOps_length_of_mem
  intro op hop
  exact ops_mem_storeKeys_applyOps (buildOps docs) s op hop

/-! ### POST /ask: vector search, post-filters, citations.

The `$vectorSearch` stage runs in the external store; its output
(`numCandidates: 200`, `limit: 8`) is the input `vs` below.  The
post-filter stages are spread syntax conditionals in index.js —
`...(city ? [{ $match: { city } }] : [])` — so a filter is applied only
when its value is *truthy* in JavaScript (for a string: present and
non-empty; for the tag list: present and non-empty). -/

/-- `numCandidates: 200` of the `$vectorSearch` stage. -/
def askNumCandidates : Nat := 200

/-- `limit: 8` of the `$vectorSearch` stage. -/
def askLimit : Nat := 8

/-- `...(city ? [{ $match: { city } }] : [])`. -/
def cityStage (city : Option String) (docs : List DocRecord) : List DocRecord :=
  match city with
  | some c => if c ≠ "" then docs.filter (fun d => d.city = c) else docs
  | none => docs

/-- `...(category ? [{ $match: { category } }] : [])`. -/
def categoryStage (category : Option String) (docs : List DocRecord) : List DocRecord :=
  match category with
  | some c => if c ≠ "" then docs.filter (fun d => d.category = c) else docs
  | none => docs

/-- `...(tags && tags.length > 0 ? [{ $match: { "meta.tags": { $all: tags } } }] : [])`. -/
def tagsStage (tags : Option (List String)) (docs : List DocRecord) : List DocRecord :=
  match tags with
  | some ts =>
      if 0 < ts.length then docs.filter (fun d => ts.all (fun t => d.meta.tags.contains t))
      else docs
  | none => docs

/-- The documents produced by the aggregation pipeline of POST /ask,
given the `$vectorSearch` output `vs`.  (The `$project` stage only
selects fields and attaches the search score; it keeps the documents
themselves.) -/
def askDocs (vs : List DocRecord) (city category : Option String)
    (tags : Option (List String)) : List DocRecord :=
  tagsStage tags (categoryStage category (cityStage city vs))

/-- `sources: docs.slice(0, 5).map(d => d.url).filter(Boolean)`. -/
def askSources (docs : List DocRecord) : List String :=
  ((docs.take 5).map (fun d => d.url)).filter (fun u => u ≠ "")

theorem mem_of_mem_tagsStage (tags : Option (List String)) (docs : List DocRecord)
    (d : DocRecord) (h : d ∈ tagsStage tags docs) : d ∈ docs := by
  cases tags with
  | none => exact h
  | some ts =>
      by_cases hc : 0 < ts.length
      · rw [tagsStage, if_pos hc] at h
        exact List.mem_of_mem_filter h
      · rw [tagsStage, if_neg hc] at h
        exact h

theorem mem_of_mem_categoryStage (category : Option String) (docs : List DocRecord)
    (d : DocRecord) (h : d ∈ categoryStage category docs) : d ∈ docs := by
  cases category with
  | none => exact h
  | some c =>
      by_cases hc : c ≠ ""
      · rw [categoryStage, if_pos hc] at h
        exact List.mem_of_mem_filter h
      · rw [categoryStage, if_neg hc] at h
        exact h

/-- C3 (counterexample to "any city value"): a query whose `city` is the
empty string skips the `$match` stage entirely (the empty string is
falsy in JavaScript), so a chunk stored with city `"Osaka"` is returned
although its stored city differs from the supplied one. -/
def osakaDoc : DocRecord :=
  { city := "Osaka", category := "Transit", url := "u", chunk := [],
    meta := { sectionLabel := [], tags := [] }, pos := some 0, embedding := [] }

theorem ask_city_filter_empty_city_cex :
    askDocs [osakaDoc] (some "") none none = [osakaDoc] ∧ osakaDoc.city ≠ "" := by
  refine ⟨rfl, ?_⟩
  decide

/-- C3 (amended): for every *non-empty* city value, every chunk returned
by the POST /ask pipeline has that stored city; no chunk with a
differing city is ever returned.  (The empty string bypasses the filter
because of JS truthiness — see the counterexample.) -/
theorem ask_city_filter_correct (vs : List DocRecord) (category : Option String)
    (tags : Option (List String)) (c : String) (hc : c ≠ "") :
    ∀ d ∈ askDocs vs (some c) category tags, d.city = c := by
  intro d hd
  have h1 : d ∈ cityStage (some c) vs :=
    mem_of_mem_categoryStage category _ d
      (mem_of_mem_tagsStage tags _ d hd)
  rw [cityStage, if_pos hc] at h1
  have := List.of_mem_filter h1
  exact of_decide_eq_true this

/-- A chunk stored for Tokyo. -/
def tokyoDoc : DocRecord :=
  { city := "Tokyo", category := "Transit", url := "t", chunk := [],
    meta := { sectionLabel := [], tags := [] }, pos := some 0, embedding := [] }

/-- C3 (witness): on a Tokyo query over a mixed search result, the
returned document's city is Tokyo, by the filter theorem applied to the
surviving document. -/
theorem ask_city_filter_correct_witness :
    tokyoDoc.city = "Tokyo" :=
  ask_city_filter_correct [tokyoDoc, osakaDoc] none none "Tokyo" (by decide)
    tokyoDoc (by decide)

/-- C7: when the `$vectorSearch` stage honours its `limit: 8` (the
hypothesis on `vs`), the result set passed to answer assembly has at
most 8 chunks — the post-filters only remove documents — and the
`sources` citation list keeps at most the first 5 of their URLs. -/
theorem ask_results_bounded (vs : List DocRecord) (city category : Option String)
    (tags : Option (List String)) (h : vs.length ≤ askLimit) :
    (askDocs vs city category tags).length ≤ askLimit ∧
      (askSources (askDocs vs city category tags)).length ≤ 5 := by
  have hcity : (cityStage city vs).length ≤ vs.length := by
    cases city with
    | none => exact le_rfl
    | some c =>
        by_cases hc : c ≠ ""
        · rw [cityStage, if_pos hc]
          exact List.length_filter_le _ vs
        · rw [cityStage, if_neg hc]
  have hcat : (categoryStage category (cityStage city vs)).length ≤ (cityStage city vs).length := by
    cases category with
    | none => exact le_rfl
    | some c =>
        by_cases hc : c ≠ ""
        · rw [categoryStage, if_pos hc]
          exact List.length_filter_le _ _
        · rw [categoryStage, if_neg hc]
  have htags : (askDocs vs city category tags).length
      ≤ (categoryStage category (cityStage city vs)).length := by
    cases tags with
    | none => exact le_rfl
    | some ts =>
        by_cases hc : 0 < ts.length
        · rw [askDocs, tagsStage, if_pos hc]
          exact List.length_filter_le _ _
        · rw [askDocs, tagsStage, if_neg hc]
  constructor
  · omega
  · calc (askSources (askDocs vs city category tags)).length
        ≤ (((askDocs vs city category tags).take 5).map (fun d => d.url)).length :=
          List.length_filter_le _ _
      _ = ((askDocs vs city category tags).take 5).length := List.length_map _ _
      _ ≤ 5 := by
          rw [List.length_take]
          omega

/-- C7 (witness): the bounds at a concrete (empty) search result. -/
theorem ask_results_bounded_witness :
    (askDocs [] none none none).length ≤ askLimit ∧
      (askSources (askDocs [] none none none)).length ≤ 5 :=
  ask_results_bounded [] none none none (by decide)

/-! ### POST /admin/ingest/url: token gate, fetch → extract → chunk →
embed → upsert loop.

The network and the DOM are external: a fetched page is modelled by the
text contents the route reads from it (`h1`, `title`, `#content`, body),
and the world is a function from URL to a fetched page or a thrown
error.  The hosted embeddings API is a function from chunk to vector. -/

/-- The pieces of a fetched, parsed page that the route reads.  A `none`
models a missing element (`querySelector` returned `null`). -/
structure Page where
  h1Text : Option (List Char)
  titleText : Option (List Char)
  contentText : Option (List Char)
  bodyText : List Char
deriving DecidableEq

/-- The request body after zod validation:
`{ city, category (default "Transit"), urls, tags? }`. -/
structure IngestBody where
  city : String
  category : String
  urls : List String
  tags : Option (List String)
deriving DecidableEq

/-- Externally visible side effects of the ingest route, in order. -/
inductive Eff
  | fetch (url : String)
  | embedCall (url : String)
  | write (url : String) (count : Nat)
deriving DecidableEq

/-- The responses the route can produce: 200 `{ok, ingestedChunks}`,
400 `{error}`, 401 `{error: "unauthorized"}`. -/
inductive ApiResponse
  | ok (ingestedChunks : Nat)
  | clientError (msg : String)
  | unauthorized
deriving DecidableEq

/-- JavaScript `a || b` for strings: `a` when truthy (non-empty), else `b`. -/
def jsOrL (a b : List Char) : List Char :=
  if a = [] then b else a

/-- `replace(/\s+/g, " ")`: each maximal whitespace run becomes a single
space.  The flag records whether the previous character was part of a
whitespace run already replaced. -/
def collapseWsAux : Bool → List Char → List Char
  | _, [] => []
  | inRun, c :: rest =>
      if c.isWhitespace then
        (if inRun then [] else [' ']) ++ collapseWsAux true rest
      else c :: collapseWsAux false rest

/-- `String.prototype.trim`. -/
def jsTrim (s : List Char) : List Char :=
  ((s.dropWhile Char.isWhitespace).reverse.dropWhile Char.isWhitespace).reverse

/-- `text.replace(/\s+/g, " ").trim()`. -/
def normalizeWs (s : List Char) : List Char :=
  jsTrim (collapseWsAux false s)

/-- `document.querySelector("#content")?.textContent ||
document.body.textContent || ""`, whitespace-collapsed and trimmed. -/
def extractText (p : Page) : List Char :=
  normalizeWs (jsOrL (p.contentText.getD []) (jsOrL p.bodyText []))

/-- `h1?.textContent?.trim() || title?.textContent?.trim() || "General"`. -/
def titleOf (p : Page) : List Char :=
  jsOrL (jsTrim (p.h1Text.getD []))
    (jsOrL (jsTrim (p.titleText.getD [])) "General".toList)

/-- The documents built for one URL:
`chunks.map((c, i) => ({city, category, url, chunk: c, meta, pos: i, embedding: embeds[i]}))`. -/
def mkDocs (city category url : String) (title : List Char) (tags : List String)
    (embed : List Char → List Int) (chunks : List (List Char)) : List DocRecord :=
  mapIdxFrom
    (fun i c =>
      { city := city, category := category, url := url, chunk := c,
        meta := { sectionLabel := title, tags := tags }, pos := some i,
        embedding := embed c })
    0 chunks

/-- The `for (const url of urls)` loop of the route: fetch, extract,
chunk (with the route's default window 900 / overlap 120), embed,
upsert, and accumulate the chunk total.  A thrown error on any URL
propagates immediately, carrying the store and effects so far. -/
def ingestUrls (embed : List Char → List Int) (world : String → Except String Page)
    (city category : String) (tags : List String) :
    List String → Store → Nat → List Eff →
      Except (String × Store × List Eff) (Store × Nat × List Eff)
  | [], store, total, effs => .ok (store, total, effs)
  | url :: rest, store, total, effs =>
      match world url with
      | .error e => .error (e, store, effs ++ [.fetch url])
      | .ok p =>
          let docs := mkDocs city category url (titleOf p) tags embed
            ((chunkText (extractText p) chunkSize chunkOverlap).getD [])
          ingestUrls embed world city category tags rest (upsertDocs store docs)
            (total + docs.length)
            (effs ++ [.fetch url, .embedCall url] ++
              (if docs.length = 0 then [] else [.write url docs.length]))

/-- The POST /admin/ingest/url handler: the `x-admin-token` header is
compared with `process.env.ADMIN_TOKEN` before anything else; then the
body is validated and the URLs are ingested in order. -/
def adminIngestUrl (envToken headerToken : Option String)
    (parsed : Except String IngestBody) (embed : List Char → List Int)
    (world : String → Except String Page) (store : Store) :
    ApiResponse × Store × List Eff :=
  if headerToken ≠ envToken then (.unauthorized, store, [])
  else
    match parsed with
    | .error m => (.clientError m, store, [])
    | .ok body =>
        match ingestUrls embed world body.city body.category (body.tags.getD [])
            body.urls store 0 [] with
        | .error (m, s, effs) => (.clientError m, s, effs)
        | .ok (s, total, effs) => (.ok total, s, effs)

/-- C4: with an admin token configured, a request whose `x-admin-token`
header is missing or different is answered with 401 unauthorized, the
store is untouched and no fetch, embedding call or store write happens
(the effect list is empty). -/
theorem adminIngest_unauthorized (t : String) (envToken headerToken : Option String)
    (he : envToken = some t) (hh : headerToken ≠ some t)
    (parsed : Except String IngestBody) (embed : List Char → List Int)
    (world : String → Except String Page) (store : Store) :
    adminIngestUrl envToken headerToken parsed embed world store
      = (.unauthorized, store, []) := by
  rw [adminIngestUrl.eq_def, if_pos]
  rw [he]
  exact hh

/-- C4 (witness): a concrete rejected request. -/
theorem adminIngest_unauthorized_witness :
    adminIngestUrl (some "secret") none
      (.ok { city := "Tokyo", category := "Transit", urls := ["u"], tags := none })
      (fun _ => []) (fun _ => .error "never fetched") []
      = (.unauthorized, [], []) :=
  adminIngest_unauthorized "secret" (some "secret") none rfl (by decide)
    (.ok { city := "Tokyo", category := "Transit", urls := ["u"], tags := none })
    (fun _ => []) (fun _ => .error "never fetched") []

/-- A page with no `#content` element and an empty body. -/
def emptyPage : Page :=
  { h1Text := none, titleText := none, contentText := none, bodyText := [] }

/-- C6: ingesting a single URL whose page has no `#content` container and
an empty body extracts the empty text, produces an empty chunk list,
writes nothing to the store (the store is returned unchanged and no
write effect is emitted), and responds `ingestedChunks = 0`. -/
theorem ingest_empty_extraction (envToken : Option String) (city category : String)
    (tags : Option (List String)) (url : String) (embed : List Char → List Int)
    (store : Store) :
    extractText emptyPage = [] ∧
      chunkText (extractText emptyPage) chunkSize chunkOverlap = some [] ∧
      adminIngestUrl envToken envToken
        (.ok { city := city, category := category, urls := [url], tags := tags })
        embed (fun _ => .ok emptyPage) store
        = (.ok 0, store, [.fetch url, .embedCall url]) := by
  refine ⟨rfl, rfl, ?_⟩
  rw [adminIngestUrl.eq_def, if_neg (by simp)]
  rfl

theorem ingestUrls_append (embed : List Char → List Int)
    (world : String → Except String Page) (city category : String)
    (tags : List String) (us vs : List String) :
    ∀ (store : Store) (total : Nat) (effs : List Eff),
      ingestUrls embed world city category tags (us ++ vs) store total effs =
        match ingestUrls embed world city category tags us store total effs with
        | .error r => .error r
        | .ok (s, t, e) => ingestUrls embed world city category tags vs s t e := by
  induction us with
  | nil =>
      intro store total effs
      rfl
  | cons u rest ih =>
      intro store total effs
      cases hw : world u with
      | error e =>
          simp only [List.cons_append, ingestUrls, hw]
      | ok p =>
          simp only [List.cons_append, ingestUrls, hw]
          exact ih _ _ _

/-- C8 (amended): a multi-URL ingestion aborts at the first failing URL —
no later URL is processed (the result does not depend on `post`), the
response is a generic 400 client error carrying only the error message
(no partial-success reporting) — but the documents already upserted for
the earlier URLs remain in the store (`s1`): the stored work is *not*
rolled back, only its report is lost. -/
theorem ingest_abort_first_failure (embed : List Char → List Int)
    (world : String → Except String Page) (city category : String)
    (tags : Option (List String)) (envToken : Option String) (store : Store)
    (pre post : List String) (bad e : String)
    (hbad : world bad = .error e)
    (s1 : Store) (t1 : Nat) (effs1 : List Eff)
    (hpre : ingestUrls embed world city category (tags.getD []) pre store 0 []
      = .ok (s1, t1, effs1)) :
    adminIngestUrl envToken envToken
      (.ok { city := city, category := category, urls := pre ++ bad :: post, tags := tags })
      embed world store
      = (.clientError e, s1, effs1 ++ [.fetch bad]) := by
  rw [adminIngestUrl.eq_def, if_neg (by simp)]
  simp only [ingestUrls_append embed world city category (tags.getD []) pre (bad :: post),
    hpre]
  simp only [ingestUrls, hbad]

/-- The world used for the concrete C8 runs: `"u1"` fetches a two-byte
page, everything else throws `"boom"`. -/
def cexPage : Page :=
  { h1Text := none, titleText := none, contentText := none, bodyText := "hi".toList }

def cexWorld : String → Except String Page :=
  fun u => if u = "u1" then .ok cexPage else .error "boom"

def cexEmbed : List Char → List Int :=
  fun _ => []

/-- The single document ingested from `"u1"` before the failure. -/
def cexDoc : DocRecord :=
  { city := "Tokyo", category := "Transit", url := "u1", chunk := "hi".toList,
    meta := { sectionLabel := "General".toList, tags := [] }, pos := some 0,
    embedding := [] }

def cexStore1 : Store := [(("u1", 0), cexDoc)]

def cexEffs1 : List Eff := [.fetch "u1", .embedCall "u1", .write "u1" 1]

/-- C8 (counterexample to "work is lost"): on the batch
`["u1", "u2"]` where `"u2"` throws, the response is the bare 400 error,
but the store afterwards still holds the document ingested from `"u1"` —
the prior work persists in the store rather than being lost. -/
theorem ingest_prior_work_persisted_cex :
    adminIngestUrl (some "t") (some "t")
      (.ok { city := "Tokyo", category := "Transit", urls := ["u1", "u2"], tags := none })
      cexEmbed cexWorld []
      = (.clientError "boom", cexStore1, cexEffs1 ++ [.fetch "u2"]) ∧
      cexStore1 ≠ ([] : Store) := by
  decide

/-- C8 (witness): the abort theorem at a concrete three-URL batch; the
third URL is never consulted. -/
theorem ingest_abort_first_failure_witness :
    adminIngestUrl (some "t") (some "t")
      (.ok { city := "Tokyo", category := "Transit", urls := ["u1", "u2", "u3"], tags := none })
      cexEmbed cexWorld []
      = (.clientError "boom", cexStore1, cexEffs1 ++ [.fetch "u2"]) :=
  ingest_abort_first_failure cexEmbed cexWorld "Tokyo" "Transit" none (some "t") []
    ["u1"] ["u3"] "u2" "boom" rfl cexStore1 1 cexEffs1 rfl

end Transiter
